import Mathlib

/-!
# Verification of the pymt event-scheduling and port-mapping engine

This file embeds, in Lean, the core of the coupled-model orchestration
engine of the repository (the `EventManager` scheduler with its
`PortEvent` / `PortMapEvent` / `ChainEvent` variants), together with the
BOV header reader (`cmt/bov/bov.py`) and the NetCDF field reader
(`cmt/printers/nc/read.py`), and proves the specified properties of each.

The scheduler sources (`cmt/events/manager.py`, `cmt/events/port.py`,
`cmt/events/chain.py`) are exercised by the test file
`cmt/events/tests/test_port_map_events.py` but are not themselves part of
the source tree available here, so the scheduler definitions below are
modelled from the specification (sections 3, 4, 5 and 7 of `spec.md`);
each such definition carries a doc comment saying so.  The BOV and NetCDF
definitions are translated directly from the Python sources.

Simulation times and grid values are modelled as rationals; machine
floats do not matter for any property proved here (all constants involved
are exactly representable and only ordering and exact arithmetic appear).
-/

/-- Simulation time.  The spec's "positive real" intervals are modelled as
rationals, which is exact for every constant appearing in the spec and the
tests (1, 1.2, 2, ...). -/
abbrev Time := ℚ

/-- Error kinds of the scheduler, from the spec's error taxonomy (§7) and
the named failures of §4 (`InvalidIntervalError`, `BackwardTimeError`,
`InvalidStateError`, `UnknownVariableError`) plus an opaque failure of an
external port operation and a fuel marker for the loop embedding. -/
inductive Err where
  | invalidInterval
  | backwardTime
  | invalidState
  | unknownVariable (port var : String)
  | portFailure (port : String)
  | fuelExhausted
deriving DecidableEq

/-- Modelled from the spec (§3, §6): the observable state of one external
Port.  `vals` maps variable names to grid values (a single rational stands
for the array of values), `time` is the port's own clock, `initCount` and
`finCount` count lifecycle calls, and the `break*` flags model a port
whose corresponding operation raises (the spec treats port operations as
opaque calls that may fail). -/
structure PortState where
  vals : List (String × ℚ)
  time : Time
  initCount : Nat
  finCount : Nat
  breakInit : Bool
  breakRun : Bool
  breakFin : Bool

/-- Modelled from the spec (§5): the shared mutable state all events act
on.  Ports are shared by identity (their name); `log` records every
`update_until(t)` call as a `(port, t)` pair, which makes firing order
observable. -/
structure World where
  ports : String → PortState
  log : List (String × Time)

/-- Lookup of a named variable in a port's value table. -/
def lookupVar : List (String × ℚ) → String → Option ℚ
  | [], _ => none
  | (k, x) :: rest, n => if k = n then some x else lookupVar rest n

/-- Overwrite of a named variable in a port's value table. -/
def setVar : List (String × ℚ) → String → ℚ → List (String × ℚ)
  | [], _, _ => []
  | (k, x) :: rest, n, v =>
    if k = n then (k, v) :: setVar rest n v else (k, x) :: setVar rest n v

/-- Replace the state of one port, leaving every other port unchanged. -/
def setPort (w : World) (p : String) (st : PortState) : World :=
  { w with ports := fun q => if q = p then st else w.ports q }

/-- Modelled from the spec (§6): `get_grid_values(name)`; `none` models
`UnknownVariableError`. -/
def getGridValues (w : World) (p n : String) : Option ℚ :=
  lookupVar ((w.ports p).vals) n

/-- Modelled from the spec (§4.3, §6): `set_grid_values(name, value)`;
fails (`none`) when the named variable does not exist on the port. -/
def setGridValues (w : World) (p n : String) (v : ℚ) : Option World :=
  if (lookupVar ((w.ports p).vals) n).isSome then
    some (setPort w p { w.ports p with vals := setVar (w.ports p).vals n v })
  else none

/-- Modelled from the spec (§6): `update_until(time)` on a port: advances
the port's clock and records the call in the world log; fails when the
port is broken. -/
def updateUntil (w : World) (p : String) (t : Time) : World × Option Err :=
  if (w.ports p).breakRun then (w, some (.portFailure p))
  else
    (setPort { w with log := w.log ++ [(p, t)] } p { w.ports p with time := t }, none)

/-- Modelled from the spec (§6): a port's `initialize()` call; the attempt
is recorded in `initCount` and the call fails when the port is broken. -/
def portInit (w : World) (p : String) : World × Option Err :=
  let st := w.ports p
  let w' := setPort w p { st with initCount := st.initCount + 1 }
  if st.breakInit then (w', some (.portFailure p)) else (w', none)

/-- Modelled from the spec (§6): a port's `finalize()` call; the attempt
is recorded in `finCount` and errors are reported as a (possibly empty)
list, matching the aggregate-and-continue contract of finalization. -/
def portFin (w : World) (p : String) : World × List Err :=
  let st := w.ports p
  let w' := setPort w p { st with finCount := st.finCount + 1 }
  if st.breakFin then (w', [.portFailure p]) else (w', [])

/-- Modelled from the spec (§3): the polymorphic event hierarchy:
`PortEvent` wraps one port, `PortMapEvent` holds a source port, a
destination port and an ordered list of `(dst_name, src_name)` pairs, and
`ChainEvent` holds an ordered sequence of sub-events. -/
inductive Event where
  | portEvent (port : String)
  | portMapEvent (srcPort dstPort : String) (varsToMap : List (String × String))
  | chainEvent (subs : List Event)

mutual

/-- Modelled from the spec (§4.2-§4.4): `initialize()`.  A `PortEvent`
delegates to its port, a `PortMapEvent` is a no-op (it does not
re-initialize shared ports), a `ChainEvent` initializes its sub-events in
order, aborting on the first failure. -/
def eventInit : Event → World → World × Option Err
  | .portEvent p, w => portInit w p
  | .portMapEvent _ _ _, w => (w, none)
  | .chainEvent subs, w => initList subs w

/-- `initialize()` of a list of sub-events in order; the first failure
aborts and propagates (§4.4). -/
def initList : List Event → World → World × Option Err
  | [], w => (w, none)
  | e :: es, w =>
    let r := eventInit e w
    match r.2 with
    | some err => (r.1, some err)
    | none => initList es r.1

end

/-- Modelled from the spec (§4.3): one `(dst_name, src_name)` transfer:
read `value = src_port.get_grid_values(src_name)`, then
`dst_port.set_grid_values(dst_name, value)`; an unknown variable on either
port fails with `UnknownVariableError(port, variable)`. -/
def portMapStep (src dst : String) (w : World) (pr : String × String) :
    World × Option Err :=
  match getGridValues w src pr.2 with
  | none => (w, some (.unknownVariable src pr.2))
  | some v =>
    match setGridValues w dst pr.1 v with
    | none => (w, some (.unknownVariable dst pr.1))
    | some w' => (w', none)

/-- Modelled from the spec (§4.3): `PortMapEvent.run` transfers each pair
in list order, aborting on the first failure. -/
def portMapRun (src dst : String) : List (String × String) → World → World × Option Err
  | [], w => (w, none)
  | pr :: rest, w =>
    let r := portMapStep src dst w pr
    match r.2 with
    | some err => (r.1, some err)
    | none => portMapRun src dst rest r.1

mutual

/-- Modelled from the spec (§4.2-§4.4): `run(until_time)`.  A `PortEvent`
calls the port's `update_until(until_time)`; a `PortMapEvent` copies its
pairs (the until-time plays no role in the copy); a `ChainEvent` runs its
sub-events in order, passing the same until-time to every sub-event and
failing immediately when a sub-event fails (already-run sub-events keep
their effects). -/
def eventRun : Event → Time → World → World × Option Err
  | .portEvent p, t, w => updateUntil w p t
  | .portMapEvent src dst vars, _, w => portMapRun src dst vars w
  | .chainEvent subs, t, w => runList subs t w

/-- `run(until_time)` of a list of sub-events in order with the same
until-time, aborting on the first failure (§4.4). -/
def runList : List Event → Time → World → World × Option Err
  | [], _, w => (w, none)
  | e :: es, t, w =>
    let r := eventRun e t w
    match r.2 with
    | some err => (r.1, some err)
    | none => runList es t r.1

end

mutual

/-- Modelled from the spec (§4.2-§4.4): `finalize()`.  A `PortEvent`
delegates to its port; a `PortMapEvent` is a no-op; a `ChainEvent`
finalizes each sub-event in order, continuing past individual failures and
aggregating them. -/
def eventFin : Event → World → World × List Err
  | .portEvent p, w => portFin w p
  | .portMapEvent _ _ _, w => (w, [])
  | .chainEvent subs, w => finList subs w

/-- `finalize()` of a list of sub-events: every sub-event is attempted,
errors are aggregated (§4.4). -/
def finList : List Event → World → World × List Err
  | [], w => (w, [])
  | e :: es, w =>
    let r := eventFin e w
    let r' := finList es r.1
    (r'.1, r.2 ++ r'.2)

end

mutual

/-- How many times a full `finalize()` of the event touches port `p`
(ghost accounting used to state the attempted-exactly-once property). -/
def countFin : Event → String → Nat
  | .portEvent q, p => if q = p then 1 else 0
  | .portMapEvent _ _ _, _ => 0
  | .chainEvent subs, p => countFinList subs p

/-- `countFin` summed over a list of events. -/
def countFinList : List Event → String → Nat
  | [], _ => 0
  | e :: es, p => countFin e p + countFinList es p

end

/-- Lifecycle phases of the manager (spec §4.1 state machine:
Unstarted → Initialized → Running → Finalized); `inited` stands for the
spec's "Initialized" phase. -/
inductive Phase where
  | unstarted
  | inited
  | running
  | finalized
deriving DecidableEq

/-- Modelled from the spec (§3): one schedule entry: an event, its
recurrence `interval`, and its `nextDue` time. -/
structure Entry where
  event : Event
  interval : Time
  nextDue : Time

/-- Modelled from the spec (§3, §4.1): the manager state: registered
entries in registration order, the global clock, and the lifecycle
phase. -/
structure EventManager where
  entries : List Entry
  currentTime : Time
  phase : Phase

/-- Modelled from the spec (§4.1): `add_recurring_event(event, interval)`:
fails with `InvalidIntervalError` when `interval ≤ 0`, otherwise registers
the event with `next_due_time = current_time + interval`. -/
def addRecurringEvent (m : EventManager) (e : Event) (i : Time) :
    Except Err EventManager :=
  if i ≤ 0 then .error .invalidInterval
  else .ok { m with entries := m.entries ++ [⟨e, i, m.currentTime + i⟩] }

/-- A manager with no events, at time 0, not yet entered. -/
def emptyManager : EventManager := ⟨[], 0, .unstarted⟩

/-- Modelled from the spec (§4.1): construction from an ordered sequence
of `(event, interval)` pairs; each is registered in order (so, the clock
being 0, each `next_due_time` starts at `interval`). -/
def createManager (pairs : List (Event × Time)) : Except Err EventManager :=
  pairs.foldlM (fun m pr => addRecurringEvent m pr.1 pr.2) emptyManager

/-- Modelled from the spec (§4.1): `initialize_all()` (entry of scoped
use): initializes every registered event in registration order, aborting
on the first failure; on success the manager becomes Initialized. -/
def initAll (m : EventManager) (w : World) : EventManager × World × Option Err :=
  if m.phase = .unstarted then
    let r := initList (m.entries.map Entry.event) w
    match r.2 with
    | some err => (m, r.1, some err)
    | none => ({ m with phase := .inited }, r.1, none)
  else (m, w, some .invalidState)

/-- Modelled from the spec (§4.1, §8): `finalize_all()` (exit of scoped
use): a second call is rejected with `InvalidStateError`; otherwise every
registered event is finalized in registration order, failures are
aggregated, and the manager becomes Finalized. -/
def finalizeAll (m : EventManager) (w : World) : EventManager × World × List Err :=
  if m.phase = .finalized then (m, w, [.invalidState])
  else
    let r := finList (m.entries.map Entry.event) w
    ({ m with phase := .finalized }, r.1, r.2)

/-- The minimum `nextDue` among entries that are due (`nextDue ≤ stop`),
if any (§4.1's selection step). -/
def minDue? : List Entry → Time → Option Time
  | [], _ => none
  | en :: es, stop =>
    match minDue? es stop with
    | none => if en.nextDue ≤ stop then some en.nextDue else none
    | some d => if en.nextDue ≤ stop then some (min en.nextDue d) else some d

/-- Result of firing one entry: the updated entries, world, the fired
entry's registration index, and the error if its run failed. -/
structure FireRes where
  entries : List Entry
  world : World
  idx : Nat
  error : Option Err

/-- Modelled from the spec (§4.1): fire the first (lowest registration
index) entry whose `nextDue` equals the minimum due time `d`: call
`event.run(d)` — the event's own due time, not the stop time — then
advance that entry by exactly its interval (`next_due_time += interval`,
fixed-interval recurrence). -/
def fireFirstAt : List Entry → Time → World → FireRes
  | [], _, w => ⟨[], w, 0, none⟩
  | en :: es, d, w =>
    if en.nextDue = d then
      let r := eventRun en.event d w
      ⟨{ en with nextDue := en.nextDue + en.interval } :: es, r.1, 0, r.2⟩
    else
      let r := fireFirstAt es d w
      ⟨en :: r.entries, r.world, r.idx + 1, r.error⟩

/-- Result of the firing loop: the updated entries and world, the trace of
firings as `(due time, registration index)` pairs in firing order, and the
first error if one occurred. -/
structure LoopRes where
  entries : List Entry
  world : World
  trace : List (Time × Nat)
  error : Option Err

/-- Modelled from the spec (§4.1): the firing loop of `run(stop_time)`:
repeatedly fire the earliest-due event (ties by registration order) until
no entry's `nextDue` is `≤ stop`.  `fuel` bounds the number of firings (a
shallow-embedding device; exhaustion is reported as an error and never
identified with normal completion). -/
def runLoop : Nat → List Entry → Time → World → LoopRes
  | 0, es, _, w => ⟨es, w, [], some .fuelExhausted⟩
  | fuel + 1, es, stop, w =>
    match minDue? es stop with
    | none => ⟨es, w, [], none⟩
    | some d =>
      let r := fireFirstAt es d w
      match r.error with
      | some err => ⟨r.entries, r.world, [(d, r.idx)], some err⟩
      | none =>
        let res := runLoop fuel r.entries stop r.world
        ⟨res.entries, res.world, (d, r.idx) :: res.trace, res.error⟩

/-- Result of a `run(stop_time)` call. -/
structure RunRes where
  manager : EventManager
  world : World
  trace : List (Time × Nat)
  error : Option Err

/-- Modelled from the spec (§4.1): `run(stop_time)`: rejected with
`InvalidStateError` outside the Initialized/Running phases, with
`BackwardTimeError` when `stop_time < current_time`; otherwise fires all
due events and, on completion, sets `current_time = stop_time` (a failed
firing aborts the call, keeping the effects already produced, §7). -/
def runManager (m : EventManager) (fuel : Nat) (stop : Time) (w : World) : RunRes :=
  if m.phase = .inited ∨ m.phase = .running then
    if stop < m.currentTime then ⟨m, w, [], some .backwardTime⟩
    else
      let r := runLoop fuel m.entries stop w
      match r.error with
      | some err => ⟨{ m with entries := r.entries }, r.world, r.trace, some err⟩
      | none => ⟨⟨r.entries, stop, .running⟩, r.world, r.trace, none⟩
  else ⟨m, w, [], some .invalidState⟩

/-- A sequence of `run` calls; the first failure stops the sequence,
keeping the state reached so far (§5: no mid-run cancellation). -/
def runMany (fuel : Nat) : List Time → EventManager → World → EventManager × World × Option Err
  | [], m, w => (m, w, none)
  | s :: ss, m, w =>
    let r := runManager m fuel s w
    match r.error with
    | some err => (r.manager, r.world, some err)
    | none => runMany fuel ss r.manager r.world

/-- Modelled from the spec (§6): scoped use of the manager: enter calls
`initialize_all` (a failing entry aborts without running the body), the
body is a sequence of `run` calls, and `finalize_all` runs on exit
unconditionally — also when a `run` raised. -/
def scopedRun (m : EventManager) (fuel : Nat) (stops : List Time) (w : World) :
    World × Option Err × List Err :=
  let ri := initAll m w
  match ri.2.2 with
  | some err => (ri.2.1, some err, [])
  | none =>
    let rr := runMany fuel stops ri.1 ri.2.1
    let rf := finalizeAll rr.1 rr.2.1
    (rf.2.1, rr.2.2, rf.2.2)

/-- `finalize` attempts on port `p` implied by a full `finalize_all` of
the given entries. -/
def countFinAll (es : List Entry) (p : String) : Nat :=
  countFinList (es.map Entry.event) p

/-- Strict lexicographic order on `(due time, registration index)` pairs:
earlier due time first, ties by lower registration index. -/
def lexLt (a b : Time × Nat) : Prop :=
  a.1 < b.1 ∨ (a.1 = b.1 ∧ a.2 < b.2)

/-- `c` is strictly below every entry of the schedule in the
`(due, index)` lexicographic order. -/
def Below (c : Time × Nat) (es : List Entry) : Prop :=
  ∀ j : Fin es.length, lexLt c ((es.get j).nextDue, (j : Nat))

/-! ## BOV reader (`cmt/bov/bov.py`)

The header parsing and validation chain of `bov.fromfile` is translated
from the source.  The data file's contents are passed in as a list of
values (`np.fromfile` is external I/O); all checks of interest happen
before, or independently of, those contents. -/

/-- Split a character list at every character satisfying `pred`,
mirroring Python's `str.split(sep)` (empty pieces kept). -/
def charSplitP (pred : Char → Bool) : List Char → List (List Char)
  | [] => [[]]
  | c :: rest =>
    let r := charSplitP pred rest
    if pred c then [] :: r
    else
      match r with
      | [] => [[c]]
      | g :: gs => (c :: g) :: gs

/-- Python's `line.split('#')` and `data.split(':')`. -/
def charSplit (sep : Char) (cs : List Char) : List (List Char) :=
  charSplitP (fun c => c = sep) cs

/-- Python's `str.strip()`: drop leading and trailing whitespace. -/
def trimChars (cs : List Char) : List Char :=
  ((cs.dropWhile Char.isWhitespace).reverse.dropWhile Char.isWhitespace).reverse

/-- Python's argumentless `str.split()`: split on whitespace runs,
discarding empty pieces. -/
def pySplit (s : String) : List String :=
  ((charSplitP Char.isWhitespace s.data).filter (fun g => !g.isEmpty)).map
    (fun g => ⟨g⟩)

/-- One iteration of the header loop of `fromfile` (bov.py lines
113-122): strip an optional `#` comment — the two-way unpacking of
`line.split('#')` succeeds only when the line holds exactly one `#`,
otherwise the whole line is kept — then split into `key: value` (exactly
one `:`, otherwise the line is skipped), stripping both parts. -/
def parseLine (line : String) : Option (String × String) :=
  let data : List Char :=
    match charSplit '#' line.data with
    | [d, _] => d
    | _ => line.data
  match charSplit ':' data with
  | [k, v] => some (⟨trimChars k⟩, ⟨trimChars v⟩)
  | _ => none

/-- Python dict assignment `header[key] = value`: replace the existing
binding or append a new one. -/
def insertKV : List (String × String) → String → String → List (String × String)
  | [], k, v => [(k, v)]
  | (k', v') :: rest, k, v =>
    if k' = k then (k, v) :: rest else (k', v') :: insertKV rest k v

/-- The `header` dict built by the read loop of `fromfile`. -/
def parseHeader (lines : List String) : List (String × String) :=
  lines.foldl
    (fun h line =>
      match parseLine line with
      | some (k, v) => insertKV h k v
      | none => h)
    []

/-- Dict lookup. -/
def lookupKey : List (String × String) → String → Option String
  | [], _ => none
  | (k, v) :: rest, n => if k = n then some v else lookupKey rest n

/-- The required BOV header keys (bov.py lines 125-126). -/
def requiredKeys : List String :=
  ["DATA_SIZE", "DATA_FORMAT", "DATA_FILE", "BRICK_ORIGIN", "BRICK_SIZE", "VARIABLE"]

/-- `keys_required - keys_found` (as the list of required keys absent from
the header; the source renders the same set, joined with `, `, into the
`MissingRequiredKeyError` message). -/
def missingKeys (h : List (String × String)) : List String :=
  requiredKeys.filter (fun k => (lookupKey h k).isNone)

/-- `_BOV_TO_NP_TYPE` (bov.py lines 57-58): the admissible `DATA_FORMAT`
values and their numpy dtypes. -/
def bovToNpType : List (String × String) :=
  [("BYTE", "uint8"), ("SHORT", "int32"), ("INT", "int64"),
   ("FLOAT", "float32"), ("DOUBLE", "float64")]

/-- Errors raised by `fromfile`: the two `BovError` subclasses exercised
by its validation chain, and `pyValueError` for exceptions the source
lets escape untranslated (e.g. `int()`/`float()` on a malformed token, or
an ill-shaped numpy mask). -/
inductive BovErr where
  | missingRequiredKey (missing : List String)
  | badKeyValue (key value : String)
  | pyValueError
deriving DecidableEq

/-- Value of a digit string (most significant first). -/
def digitsVal (cs : List Char) : Nat :=
  cs.foldl (fun n c => 10 * n + (c.toNat - 48)) 0

/-- A non-empty all-digit string's value. -/
def digitsToNat (cs : List Char) : Option Nat :=
  if !cs.isEmpty && cs.all Char.isDigit then some (digitsVal cs) else none

/-- Python `int(token)` on the integer forms appearing in BOV headers:
optional sign followed by digits; anything else raises `ValueError`. -/
def parseInt (s : String) : Option ℤ :=
  match s.data with
  | '-' :: rest => (digitsToNat rest).map (fun n => -(n : ℤ))
  | '+' :: rest => (digitsToNat rest).map (fun n => (n : ℤ))
  | cs => (digitsToNat cs).map (fun n => (n : ℤ))

/-- Python `float(token)` on the plain decimal forms appearing in BOV
headers: optional sign, digits, optional `.` and further digits (at least
one digit overall); anything else raises `ValueError`. -/
def parseFloat (s : String) : Option ℚ :=
  let unsigned : List Char → Option ℚ := fun cs =>
    match charSplit '.' cs with
    | [ip] => (digitsToNat ip).map (fun n => (n : ℚ))
    | [ip, fp] =>
      if ip.isEmpty && fp.isEmpty then none
      else if ip.all Char.isDigit && fp.all Char.isDigit then
        some ((digitsVal ip : ℚ) + (digitsVal fp : ℚ) / (10 : ℚ) ^ fp.length)
      else none
    | _ => none
  match s.data with
  | '-' :: rest => (unsigned rest).map (fun q => -q)
  | '+' :: rest => unsigned rest
  | cs => unsigned cs

/-- Numpy boolean-mask selection `xs[mask]` for equal-length operands. -/
def maskKeep {α : Type} (mask : List Bool) (xs : List α) : List α :=
  ((mask.zip xs).filter (fun pr => pr.1)).map (fun pr => pr.2)

/-- The payload `fromfile` assembles (the parsed and validated header
together with the data; the `RasterField` construction itself is external
grid plumbing and out of the claims' scope). -/
structure BovResult where
  dataSize : List ℤ
  brickOrigin : List ℚ
  brickSize : List ℚ
  dataFormat : String
  dataFile : String
  varName : String
  data : List ℚ
  time : Option ℚ

/-- `bov.fromfile` (bov.py lines 68-181), from the header loop to the
assembled result.  Stages, in source order: parse the header lines;
require the six keys (`MissingRequiredKeyError` listing the missing
ones); convert `DATA_SIZE` with `int()` and `BRICK_ORIGIN`/`BRICK_SIZE`
with `float()` (a malformed token raises `ValueError`, untranslated);
when `allow_singleton` is false, keep only the axes with more than one
point (the numpy mask needs equally long arrays); check `DATA_FORMAT`
against `_BOV_TO_NP_TYPE` (`BadKeyValueError('DATA_FORMAT', value)`);
only then read the data file; check the reshape
(`BadKeyValueError('DATA_SIZE', ...)`); convert an optional `TIME` with
`float()` (only `KeyError` is caught, so a present but malformed `TIME`
raises `ValueError`). -/
def fromfileModel (lines : List String) (fileData : List ℚ) (allowSingleton : Bool) :
    Except BovErr BovResult :=
  let header := parseHeader lines
  let missing := missingKeys header
  if missing ≠ [] then .error (.missingRequiredKey missing)
  else
    match lookupKey header "DATA_SIZE", lookupKey header "BRICK_ORIGIN",
        lookupKey header "BRICK_SIZE", lookupKey header "DATA_FORMAT",
        lookupKey header "DATA_FILE", lookupKey header "VARIABLE" with
    | some sizeS, some origS, some bsizeS, some fmt, some dfile, some varN =>
      match (pySplit sizeS).mapM parseInt with
      | none => .error .pyValueError
      | some dataSize0 =>
        match (pySplit origS).mapM parseFloat with
        | none => .error .pyValueError
        | some orig0 =>
          match (pySplit bsizeS).mapM parseFloat with
          | none => .error .pyValueError
          | some bsize0 =>
            let filtered :=
              if allowSingleton then some (dataSize0, orig0, bsize0)
              else
                if orig0.length = dataSize0.length ∧ bsize0.length = dataSize0.length then
                  let mask := dataSize0.map (fun n => decide (1 < n))
                  some (maskKeep mask dataSize0, maskKeep mask orig0, maskKeep mask bsize0)
                else none
            match filtered with
            | none => .error .pyValueError
            | some (dataSize, orig, bsize) =>
              if (lookupKey bovToNpType fmt).isSome then
                -- np.fromfile happens here in the source; its contents
                -- arrive as `fileData`.
                if dataSize.prod = (fileData.length : ℤ) then
                  match lookupKey header "TIME" with
                  | none => .ok ⟨dataSize, orig, bsize, fmt, dfile, varN, fileData, none⟩
                  | some ts =>
                    match parseFloat ts with
                    | none => .error .pyValueError
                    | some t => .ok ⟨dataSize, orig, bsize, fmt, dfile, varN, fileData, some t⟩
                else
                  .error (.badKeyValue "DATA_SIZE"
                    (toString dataSize.prod ++ " != " ++ toString fileData.length))
              else .error (.badKeyValue "DATA_FORMAT" fmt)
    | _, _, _, _, _, _ =>
      -- unreachable: when no required key is missing all six lookups
      -- succeed; kept for totality of the match
      .error .pyValueError

/-! ## NetCDF field reader (`cmt/printers/nc/read.py`) -/

/-- The recognized mesh types (`_NETCDF_MESH_TYPE` keys). -/
inductive MeshType where
  | rectilinear
  | structured
  | unstructured
deriving DecidableEq

/-- `_NETCDF_MESH_TYPE` (read.py lines 11-15). -/
def netcdfMeshType (s : String) : Option MeshType :=
  if s = "rectilinear" then some .rectilinear
  else if s = "structured" then some .structured
  else if s = "unstructured" then some .unstructured
  else none

/-- Abstraction of one netcdf file: whether it has a `mesh` variable
(`none` models the `KeyError` of `root.variables['mesh']`), whether that
variable has a `type` attribute (`some none` models the
`AttributeError`), plus the time and field contents the reader classes
expose as `_time` and `_field`. -/
structure NcFile where
  meshVar : Option (Option String)
  timeVals : List ℚ
  fieldVals : List ℚ

/-- Errors of the read path: the two re-raised `AttributeError`s, the
`TypeError` for a file with no reader, and the `UnboundLocalError` the
source actually hits on line 39 (its `except KeyError` branch formats the
message with `mesh_type`, which is not yet assigned there). -/
inductive NcErr where
  | attributeError (msg : String)
  | typeError (msg : String)
  | unboundLocalError
deriving DecidableEq

/-- Open-handle accounting: `open_netcdf` increments, `root.close()`
decrements. -/
structure NcOpenState where
  openHandles : Nat

/-- `query_netcdf_mesh_type` (read.py lines 24-41): open the file, read
`root.variables['mesh'].type` inside `try/except/finally` — the
`finally` closes the file on every path — then translate the type string
through `_NETCDF_MESH_TYPE` (an unknown string reaches line 39, which
uses `mesh_type` before assignment). -/
def queryNetcdfMeshType (f : NcFile) (st : NcOpenState) :
    Except NcErr MeshType × NcOpenState :=
  let stOpen : NcOpenState := ⟨st.openHandles + 1⟩
  let typeString : Except NcErr String :=
    match f.meshVar with
    | none => .error (.attributeError "netcdf file is missing mesh attribute")
    | some none => .error (.attributeError "netcdf file is missing type attribute")
    | some (some s) => .ok s
  let stClosed : NcOpenState := ⟨stOpen.openHandles - 1⟩
  match typeString with
  | .error e => (.error e, stClosed)
  | .ok s =>
    match netcdfMeshType s with
    | none => (.error .unboundLocalError, stClosed)
    | some mt => (.ok mt, stClosed)

/-- The two result shapes of `field_fromfile`: a `(field, times)` pair
when the file carries time values, the bare field otherwise. -/
inductive FieldResult where
  | withTimes (field : List ℚ) (times : List ℚ)
  | fieldOnly (field : List ℚ)
deriving DecidableEq

/-- `field_fromfile` (read.py lines 44-57): query the mesh type
(propagating its errors), construct the reader — `_NETCDF_READERS` has
exactly the keys of `_NETCDF_MESH_TYPE`, so the lookup succeeds for every
mesh type the query accepted — and return `(field, times)` when
`len(nc_file._time) > 0`, the bare field otherwise. -/
def field_fromfile (f : NcFile) (st : NcOpenState) :
    Except NcErr FieldResult × NcOpenState :=
  let q := queryNetcdfMeshType f st
  match q.1 with
  | .error e => (.error e, q.2)
  | .ok _ =>
    if f.timeVals.length > 0 then (.ok (.withTimes f.fieldVals f.timeVals), q.2)
    else (.ok (.fieldOnly f.fieldVals), q.2)

/-! ## Concrete inputs used by the witnesses -/

/-- A healthy port exposing no variables. -/
def basePort : PortState := ⟨[], 0, 0, 0, false, false, false⟩

/-- A world of healthy, empty ports. -/
def baseWorld : World := ⟨fun _ => basePort, []⟩

/-- Source and destination ports for the port-map witness, mirroring the
`air__density` → `earth_surface__temperature` map of
`test_port_map_events.py::test_one_event`. -/
def pairWorld : World :=
  ⟨fun p =>
    if p = "air" then { basePort with vals := [("density", 5)] }
    else if p = "earth" then { basePort with vals := [("temperature", 0)] }
    else basePort, []⟩

/-- A world in which port `"b"`'s `update_until` raises. -/
def brokenBWorld : World :=
  ⟨fun p => if p = "b" then { basePort with breakRun := true } else basePort, []⟩

/-- A manager over a single chain whose second sub-event will raise in
`brokenBWorld`, as in the spec's scoped-resource scenario. -/
def chainMgr : EventManager :=
  ⟨[⟨.chainEvent [.portEvent "a", .portEvent "b"], 1, 1⟩], 0, .unstarted⟩

/-- The two-event schedule with intervals 1 and 1.2 of
`test_port_map_events.py::test_chain`. -/
def twoEventPairs : List (Event × Time) :=
  [(.portEvent "a", 1), (.portEvent "b", 6/5)]

/-- The registered form of `twoEventPairs`. -/
def twoMgr : EventManager :=
  ⟨[⟨.portEvent "a", 1, 1⟩, ⟨.portEvent "b", 6/5, 6/5⟩], 0, .unstarted⟩

/-- Following the spec's words for the chain-composition property ("the
same final Port states as running each sub-event individually in that
order"): run each sub-event on its own, in order, with the same
until-time, keeping each result and stopping at the first failure.  This
is the refinement target `ChainEvent.run` is compared against. -/
def runEachIndividually (subs : List Event) (t : Time) (w : World) :
    World × Option Err :=
  subs.foldl
    (fun acc e =>
      match acc.2 with
      | some _ => acc
      | none => eventRun e t acc.1)
    (w, none)

/-- The single-event schedule of the first-firing scenario: one event of
interval `i` registered at construction (so due first at `i`). -/
def singleMgr (p : String) (i : Time) : EventManager :=
  ⟨[⟨.portEvent p, i, i⟩], 0, .unstarted⟩

/-- The single-event scenario after entering the scope. -/
def singleInited (p : String) (i : Time) (w : World) :
    EventManager × World × Option Err :=
  initAll (singleMgr p i) w

/-- One `run` call of the single-event scenario jumping directly to
`3 * i`. -/
def singleRun (p : String) (i : Time) (w : World) : RunRes :=
  runManager (singleInited p i w).1 4 (3 * i) (singleInited p i w).2.1

/-- First `run` call (to `t = 1`) of the two-event scenario, after
entering the scope. -/
def twoRun1 : RunRes :=
  runManager (initAll twoMgr baseWorld).1 4 1 (initAll twoMgr baseWorld).2.1

/-- Second `run` call (to `t = 2`) of the two-event scenario. -/
def twoRun2 : RunRes :=
  runManager twoRun1.manager 4 2 twoRun1.world

/-! # Basic lemmas -/

theorem setPort_self (w : World) (p : String) (st : PortState) :
    (setPort w p st).ports p = st := by
  simp [setPort]

theorem setPort_other (w : World) (p q : String) (st : PortState) (h : q ≠ p) :
    (setPort w p st).ports q = w.ports q := by
  simp [setPort, h]

/-! # C7: event registration -/

/-- C7: `add_recurring_event(event, interval)` fails with
`InvalidIntervalError` for every `interval ≤ 0`, and for every
`interval > 0` registers the event (appended to the registration order)
with `next_due_time = current_time + interval`. -/
theorem claimC7_addRecurringEvent (m : EventManager) (e : Event) (i : Time) :
    (i ≤ 0 → addRecurringEvent m e i = .error .invalidInterval) ∧
    (0 < i → addRecurringEvent m e i =
      .ok { m with entries := m.entries ++ [⟨e, i, m.currentTime + i⟩] }) := by
  constructor
  · intro h
    simp [addRecurringEvent, h]
  · intro h
    rw [addRecurringEvent, if_neg (not_le.mpr h)]

/-- Witness for C7 at interval `0` (rejected) and interval `1`
(registered due at `0 + 1`). -/
theorem claimC7_witness :
    addRecurringEvent emptyManager (.portEvent "a") 0 = .error .invalidInterval ∧
    addRecurringEvent emptyManager (.portEvent "a") 1 =
      .ok { emptyManager with
              entries := emptyManager.entries ++
                [⟨.portEvent "a", 1, emptyManager.currentTime + 1⟩] } :=
  ⟨(claimC7_addRecurringEvent emptyManager (.portEvent "a") 0).1 le_rfl,
   (claimC7_addRecurringEvent emptyManager (.portEvent "a") 1).2 one_pos⟩

/-! # C6: backward time and clock monotonicity -/

theorem runManager_ok (m : EventManager) (fuel : Nat) (stop : Time) (w : World)
    (h : (runManager m fuel stop w).error = none) :
    (runManager m fuel stop w).manager.currentTime = stop ∧ m.currentTime ≤ stop := by
  by_cases hp : m.phase = .inited ∨ m.phase = .running
  · by_cases hb : stop < m.currentTime
    · simp [runManager, hp, hb] at h
    · cases her : (runLoop fuel m.entries stop w).error with
      | some e => simp [runManager, hp, hb, her] at h
      | none =>
        simp only [runManager, if_pos hp, if_neg hb, her]
        exact ⟨trivial, le_of_not_lt hb⟩
  · simp [runManager, hp] at h

theorem runMany_monotone (fuel : Nat) (stops : List Time) :
    ∀ (m : EventManager) (w : World),
      (runMany fuel stops m w).2.2 = none →
      m.currentTime ≤ (runMany fuel stops m w).1.currentTime := by
  induction stops with
  | nil =>
    intro m w _
    simp [runMany]
  | cons s ss ih =>
    intro m w h
    cases her : (runManager m fuel s w).error with
    | some e => simp [runMany, her] at h
    | none =>
      have h2 := runManager_ok m fuel s w her
      simp only [runMany, her] at h ⊢
      calc m.currentTime ≤ s := h2.2
        _ = (runManager m fuel s w).manager.currentTime := h2.1.symm
        _ ≤ _ := ih _ _ h

/-- C6: `run(stop_time)` fails with `BackwardTimeError` whenever
`stop_time < current_time` (for a manager that is in a runnable phase at
all), otherwise a completing `run` sets `current_time = stop_time`; hence
`current_time` never decreases across any sequence of successful `run`
calls. -/
theorem claimC6_time_monotone :
    (∀ (m : EventManager) (fuel : Nat) (stop : Time) (w : World),
        (m.phase = .inited ∨ m.phase = .running) → stop < m.currentTime →
        runManager m fuel stop w = ⟨m, w, [], some .backwardTime⟩) ∧
    (∀ (m : EventManager) (fuel : Nat) (stop : Time) (w : World),
        (runManager m fuel stop w).error = none →
        (runManager m fuel stop w).manager.currentTime = stop ∧
          m.currentTime ≤ stop) ∧
    (∀ (fuel : Nat) (stops : List Time) (m : EventManager) (w : World),
        (runMany fuel stops m w).2.2 = none →
        m.currentTime ≤ (runMany fuel stops m w).1.currentTime) := by
  refine ⟨?_, ?_, ?_⟩
  · intro m fuel stop w hp hb
    simp [runManager, hp, hb]
  · exact runManager_ok
  · exact runMany_monotone

/-- Witness for C6: a backward `run` (to `0` from time `1`) is rejected
with `BackwardTimeError`; a forward `run` (to `2`) of an empty manager
completes with `current_time = 2`. -/
theorem claimC6_witness :
    runManager ⟨[], 1, .inited⟩ 1 0 baseWorld =
      ⟨⟨[], 1, .inited⟩, baseWorld, [], some .backwardTime⟩ ∧
    (runManager ⟨[], 0, .inited⟩ 1 2 baseWorld).manager.currentTime = 2 :=
  ⟨claimC6_time_monotone.1 ⟨[], 1, .inited⟩ 1 0 baseWorld (Or.inl rfl) (by norm_num),
   (claimC6_time_monotone.2.1 ⟨[], 0, .inited⟩ 1 2 baseWorld
      (by norm_num [runManager, runLoop, minDue?])).1⟩

/-! # C8: lifecycle state machine -/

/-- C8: the manager lifecycle is
Unstarted → Initialized → Running → Finalized: `run` before
`initialize_all` or after `finalize_all` fails with `InvalidStateError`;
a successful `initialize_all` moves to Initialized and a successful `run`
to Running; `finalize_all` moves to Finalized, and a second
`finalize_all` is rejected with `InvalidStateError`, leaving the world —
so the events — untouched. -/
theorem claimC8_state_machine :
    (∀ (m : EventManager) (fuel : Nat) (stop : Time) (w : World),
        m.phase = .unstarted →
        runManager m fuel stop w = ⟨m, w, [], some .invalidState⟩) ∧
    (∀ (m : EventManager) (fuel : Nat) (stop : Time) (w : World),
        m.phase = .finalized →
        runManager m fuel stop w = ⟨m, w, [], some .invalidState⟩) ∧
    (∀ (m : EventManager) (w : World),
        m.phase = .unstarted → (initAll m w).2.2 = none →
        (initAll m w).1.phase = .inited) ∧
    (∀ (m : EventManager) (fuel : Nat) (stop : Time) (w : World),
        (runManager m fuel stop w).error = none →
        (runManager m fuel stop w).manager.phase = .running) ∧
    (∀ (m : EventManager) (w : World), m.phase ≠ .finalized →
        (finalizeAll m w).1.phase = .finalized ∧
        finalizeAll (finalizeAll m w).1 (finalizeAll m w).2.1 =
          ((finalizeAll m w).1, (finalizeAll m w).2.1, [.invalidState])) := by
  refine ⟨?_, ?_, ?_, ?_, ?_⟩
  · intro m fuel stop w h
    simp [runManager, h]
  · intro m fuel stop w h
    simp [runManager, h]
  · intro m w hu h
    cases her : (initList (m.entries.map Entry.event) w).2 with
    | some e => simp [initAll, hu, her] at h
    | none => simp [initAll, hu, her]
  · intro m fuel stop w h
    by_cases hp : m.phase = .inited ∨ m.phase = .running
    · by_cases hb : stop < m.currentTime
      · simp [runManager, hp, hb] at h
      · cases her : (runLoop fuel m.entries stop w).error with
        | some e => simp [runManager, hp, hb, her] at h
        | none => simp [runManager, hp, hb, her]
    · simp [runManager, hp] at h
  · intro m w h
    have h1 : (finalizeAll m w).1.phase = .finalized := by
      simp [finalizeAll, if_neg h]
    refine ⟨h1, ?_⟩
    rw [finalizeAll, if_pos h1]

/-- Witness for C8: an unstarted and a finalized manager both reject
`run`; a successful `initialize_all` yields the Initialized phase; a
successful `run` yields the Running phase; double finalization is
rejected on the second call. -/
theorem claimC8_witness :
    runManager ⟨[], 0, .unstarted⟩ 1 1 baseWorld =
      ⟨⟨[], 0, .unstarted⟩, baseWorld, [], some .invalidState⟩ ∧
    runManager ⟨[], 0, .finalized⟩ 1 1 baseWorld =
      ⟨⟨[], 0, .finalized⟩, baseWorld, [], some .invalidState⟩ ∧
    (initAll ⟨[], 0, .unstarted⟩ baseWorld).1.phase = .inited ∧
    (runManager ⟨[], 0, .inited⟩ 1 1 baseWorld).manager.phase = .running ∧
    ((finalizeAll ⟨[], 0, .inited⟩ baseWorld).1.phase = .finalized ∧
      finalizeAll (finalizeAll ⟨[], 0, .inited⟩ baseWorld).1
          (finalizeAll ⟨[], 0, .inited⟩ baseWorld).2.1 =
        ((finalizeAll ⟨[], 0, .inited⟩ baseWorld).1,
         (finalizeAll ⟨[], 0, .inited⟩ baseWorld).2.1, [.invalidState])) :=
  ⟨claimC8_state_machine.1 ⟨[], 0, .unstarted⟩ 1 1 baseWorld rfl,
   claimC8_state_machine.2.1 ⟨[], 0, .finalized⟩ 1 1 baseWorld rfl,
   claimC8_state_machine.2.2.1 ⟨[], 0, .unstarted⟩ baseWorld rfl
     (by simp [initAll, initList]),
   claimC8_state_machine.2.2.2.1 ⟨[], 0, .inited⟩ 1 1 baseWorld
     (by norm_num [runManager, runLoop, minDue?]),
   claimC8_state_machine.2.2.2.2 ⟨[], 0, .inited⟩ baseWorld (by simp)⟩

/-! # C4: chain composition -/

theorem runEach_foldl_stuck (t : Time) (es : List Event) :
    ∀ (wv : World) (err : Err),
      es.foldl
        (fun acc e =>
          match acc.2 with
          | some _ => acc
          | none => eventRun e t acc.1) (wv, some err) = (wv, some err) := by
  induction es with
  | nil => intro wv err; rfl
  | cons e es ih => intro wv err; simpa using ih wv err

/-- C4: `ChainEvent.run(until_time)` runs each sub-event in list order
with the same `until_time`, and is extensionally equal to running each
sub-event individually in that order — same final world (so same final
port states) and same error. -/
theorem claimC4_chain_composition (subs : List Event) (t : Time) (w : World) :
    eventRun (.chainEvent subs) t w = runEachIndividually subs t w := by
  have key : ∀ (es : List Event) (wv : World),
      runList es t wv = runEachIndividually es t wv := by
    intro es
    induction es with
    | nil => intro wv; rfl
    | cons e es ih =>
      intro wv
      rw [runList, runEachIndividually, List.foldl_cons]
      cases her : (eventRun e t wv).2 with
      | some err =>
        have hfix : eventRun e t wv = ((eventRun e t wv).1, some err) := by
          rw [← her]
        simp only [her]
        conv_rhs => rw [hfix]
        exact (runEach_foldl_stuck t es (eventRun e t wv).1 err).symm
      | none =>
        have hfix : eventRun e t wv = ((eventRun e t wv).1, none) := by
          rw [← her]
        simp only [her]
        conv_rhs => rw [hfix]
        exact ih (eventRun e t wv).1
  show runList subs t w = _
  exact key subs w

/-! # C5: port-map copies values -/

theorem lookupVar_setVar_self (vs : List (String × ℚ)) (n : String) (v : ℚ)
    (h : (lookupVar vs n).isSome) : lookupVar (setVar vs n v) n = some v := by
  induction vs with
  | nil => simp [lookupVar] at h
  | cons kv rest ih =>
    obtain ⟨k, x⟩ := kv
    by_cases hk : k = n
    · simp [lookupVar, setVar, hk]
    · simp only [lookupVar, setVar, if_neg hk] at h ⊢
      exact ih h

/-- C5: firing a `PortMapEvent` mapping `dst.dn ← src.sn` reads the
source value at firing time and writes it to the destination: afterwards
`dst.get_grid_values(dn)` equals the source value `v`, and — the value
having been copied, not aliased — any later mutation of the source
variable leaves the destination's already-copied value unchanged. -/
theorem claimC5_portmap_copies (src dst dn sn : String) (t : Time) (w : World) (v : ℚ)
    (hne : dst ≠ src)
    (hsrc : getGridValues w src sn = some v)
    (hdst : (getGridValues w dst dn).isSome) :
    ∃ w', eventRun (.portMapEvent src dst [(dn, sn)]) t w = (w', none) ∧
      getGridValues w' dst dn = some v ∧
      ∀ (q : ℚ) (w'' : World), setGridValues w' src sn q = some w'' →
        getGridValues w'' dst dn = some v := by
  have hdl : (lookupVar ((w.ports dst).vals) dn).isSome = true := hdst
  have hcopy : lookupVar ((setPort w dst
      { w.ports dst with vals := setVar (w.ports dst).vals dn v }).ports dst).vals dn
      = some v := by
    rw [setPort_self]
    exact lookupVar_setVar_self _ _ _ hdl
  refine ⟨setPort w dst { w.ports dst with vals := setVar (w.ports dst).vals dn v },
    ?_, ?_, ?_⟩
  · simp only [eventRun, portMapRun, portMapStep, hsrc, setGridValues, hdl, ite_true]
  · exact hcopy
  · intro q w'' hset
    rw [setGridValues] at hset
    split at hset
    · injection hset with h
      subst h
      rw [getGridValues, setPort_other _ _ _ _ hne]
      exact hcopy
    · exact absurd hset (by simp)

/-- Witness for C5 at the `test_one_event` scenario: `src.density = 5`;
the map writes `5` into `dst.temperature`, and overwriting the source
afterwards leaves the copied value at `5`. -/
theorem claimC5_witness :
    ∃ w', eventRun (.portMapEvent "air" "earth" [("temperature", "density")]) 1 pairWorld
        = (w', none) ∧
      getGridValues w' "earth" "temperature" = some 5 ∧
      ∀ (q : ℚ) (w'' : World), setGridValues w' "air" "density" q = some w'' →
        getGridValues w'' "earth" "temperature" = some 5 :=
  claimC5_portmap_copies "air" "earth" "temperature" "density" 1 pairWorld 5
    (by decide)
    (by simp [getGridValues, pairWorld, basePort, lookupVar])
    (by simp [getGridValues, pairWorld, basePort, lookupVar])

/-! # C10: NetCDF read paths -/

/-- C10: `field_fromfile` returns the pair `(field, times)` exactly when
the file's time sequence is non-empty and the bare field when it is
empty (for any file whose mesh type the query accepts); and
`query_netcdf_mesh_type` closes the file it opened on every path —
including the paths that raise for a missing `mesh` variable or a
missing `type` attribute. -/
theorem claimC10_read_paths :
    (∀ (f : NcFile) (st : NcOpenState) (s : String),
        f.meshVar = some (some s) → (netcdfMeshType s).isSome →
        (f.timeVals ≠ [] →
          (field_fromfile f st).1 = .ok (.withTimes f.fieldVals f.timeVals)) ∧
        (f.timeVals = [] →
          (field_fromfile f st).1 = .ok (.fieldOnly f.fieldVals))) ∧
    (∀ (f : NcFile) (st : NcOpenState),
        (queryNetcdfMeshType f st).2.openHandles = st.openHandles) := by
  constructor
  · intro f st s hm hs
    obtain ⟨mt, hmt⟩ := Option.isSome_iff_exists.mp hs
    constructor
    · intro ht
      simp [field_fromfile, queryNetcdfMeshType, hm, hmt, List.length_pos.mpr ht]
    · intro ht
      simp [field_fromfile, queryNetcdfMeshType, hm, hmt, ht]
  · intro f st
    rcases f with ⟨mv, tv, fv⟩
    rcases mv with _ | mv
    · simp [queryNetcdfMeshType]
    · rcases mv with _ | s
      · simp [queryNetcdfMeshType]
      · rcases hmt : netcdfMeshType s with _ | mt <;>
          simp [queryNetcdfMeshType, hmt]

/-- Witness for C10: a rectilinear file with one time value yields the
pair, the same file without time values yields the bare field, and the
handle count returns to its initial value also when the file lacks the
`mesh` variable. -/
theorem claimC10_witness :
    (field_fromfile ⟨some (some "rectilinear"), [0], [7]⟩ ⟨0⟩).1 =
      .ok (.withTimes [7] [0]) ∧
    (field_fromfile ⟨some (some "rectilinear"), [], [7]⟩ ⟨0⟩).1 =
      .ok (.fieldOnly [7]) ∧
    (queryNetcdfMeshType ⟨none, [], []⟩ ⟨0⟩).2.openHandles = 0 :=
  ⟨(claimC10_read_paths.1 ⟨some (some "rectilinear"), [0], [7]⟩ ⟨0⟩ "rectilinear"
      rfl (by decide)).1 (by decide),
   (claimC10_read_paths.1 ⟨some (some "rectilinear"), [], [7]⟩ ⟨0⟩ "rectilinear"
      rfl (by decide)).2 rfl,
   claimC10_read_paths.2 ⟨none, [], []⟩ ⟨0⟩⟩

/-! # C9: BOV header validation -/

theorem missingKeys_nil_isSome (h : List (String × String))
    (hm : missingKeys h = []) :
    ∀ k ∈ requiredKeys, (lookupKey h k).isSome := by
  intro k hk
  by_contra hnone
  have hmem : k ∈ missingKeys h :=
    List.mem_filter.mpr ⟨hk, by simpa [Option.isNone_iff_eq_none,
      Option.not_isSome_iff_eq_none] using hnone⟩
  rw [hm] at hmem
  exact absurd hmem (List.not_mem_nil k)

/-- C9: `bov.fromfile` fails with `MissingRequiredKeyError` carrying
exactly the required keys absent from the parsed header whenever any of
the six required keys is missing — for every possible content of the
data file, i.e. before any data is read; and when all six keys are
present (and the numeric header fields convert), a `DATA_FORMAT` value
outside `BYTE`/`SHORT`/`INT`/`FLOAT`/`DOUBLE` fails with
`BadKeyValueError('DATA_FORMAT', value)`. -/
theorem claimC9_fromfile_validation :
    (∀ (lines : List String) (fileData : List ℚ) (allowSingleton : Bool),
        missingKeys (parseHeader lines) ≠ [] →
        fromfileModel lines fileData allowSingleton =
          .error (.missingRequiredKey (missingKeys (parseHeader lines)))) ∧
    (∀ (lines : List String) (fileData : List ℚ) (fmt : String),
        missingKeys (parseHeader lines) = [] →
        lookupKey (parseHeader lines) "DATA_FORMAT" = some fmt →
        lookupKey bovToNpType fmt = none →
        (∃ s, lookupKey (parseHeader lines) "DATA_SIZE" = some s ∧
            ((pySplit s).mapM parseInt).isSome) →
        (∃ s, lookupKey (parseHeader lines) "BRICK_ORIGIN" = some s ∧
            ((pySplit s).mapM parseFloat).isSome) →
        (∃ s, lookupKey (parseHeader lines) "BRICK_SIZE" = some s ∧
            ((pySplit s).mapM parseFloat).isSome) →
        fromfileModel lines fileData true =
          .error (.badKeyValue "DATA_FORMAT" fmt)) := by
  constructor
  · intro lines fileData allowSingleton hm
    simp [fromfileModel, hm]
  · intro lines fileData fmt hm hfmt hbad hsz horig hbsize
    obtain ⟨szS, hszS, hszP⟩ := hsz
    obtain ⟨origS, horigS, horigP⟩ := horig
    obtain ⟨bsS, hbsS, hbsP⟩ := hbsize
    obtain ⟨szV, hszV⟩ := Option.isSome_iff_exists.mp hszP
    obtain ⟨origV, horigV⟩ := Option.isSome_iff_exists.mp horigP
    obtain ⟨bsV, hbsV⟩ := Option.isSome_iff_exists.mp hbsP
    have hfile := missingKeys_nil_isSome (parseHeader lines) hm "DATA_FILE"
      (by simp [requiredKeys])
    have hvar := missingKeys_nil_isSome (parseHeader lines) hm "VARIABLE"
      (by simp [requiredKeys])
    obtain ⟨dfS, hdfS⟩ := Option.isSome_iff_exists.mp hfile
    obtain ⟨vS, hvS⟩ := Option.isSome_iff_exists.mp hvar
    have hbadSome : (lookupKey bovToNpType fmt).isSome = false := by
      simp [hbad]
    simp only [List.mapM] at hszV horigV hbsV
    simp [fromfileModel, hm, hszS, horigS, hbsS, hfmt, hdfS, hvS,
      hszV, horigV, hbsV, hbadSome]

/-- Witness for C9: a header with only `VARIABLE` is missing the other
five keys (reported together, before any data is considered — both for
empty and non-empty data); a complete header whose `DATA_FORMAT` is
`WEIRD` is rejected with `BadKeyValueError('DATA_FORMAT', 'WEIRD')`. -/
theorem claimC9_witness :
    fromfileModel ["VARIABLE: z"] [] true =
      .error (.missingRequiredKey
        ["DATA_SIZE", "DATA_FORMAT", "DATA_FILE", "BRICK_ORIGIN", "BRICK_SIZE"]) ∧
    fromfileModel ["VARIABLE: z"] [1, 2, 3] true =
      .error (.missingRequiredKey
        ["DATA_SIZE", "DATA_FORMAT", "DATA_FILE", "BRICK_ORIGIN", "BRICK_SIZE"]) ∧
    fromfileModel
      ["DATA_SIZE: 2", "DATA_FORMAT: WEIRD", "DATA_FILE: t.dat",
       "BRICK_ORIGIN: 0. 0.", "BRICK_SIZE: 1. 1.", "VARIABLE: z"] [1, 2] true =
      .error (.badKeyValue "DATA_FORMAT" "WEIRD") := by
  refine ⟨?_, ?_, ?_⟩
  · rw [claimC9_fromfile_validation.1 ["VARIABLE: z"] [] true (by decide),
      show missingKeys (parseHeader ["VARIABLE: z"]) =
        ["DATA_SIZE", "DATA_FORMAT", "DATA_FILE", "BRICK_ORIGIN", "BRICK_SIZE"]
      from by decide]
  · rw [claimC9_fromfile_validation.1 ["VARIABLE: z"] [1, 2, 3] true (by decide),
      show missingKeys (parseHeader ["VARIABLE: z"]) =
        ["DATA_SIZE", "DATA_FORMAT", "DATA_FILE", "BRICK_ORIGIN", "BRICK_SIZE"]
      from by decide]
  · exact claimC9_fromfile_validation.2
      ["DATA_SIZE: 2", "DATA_FORMAT: WEIRD", "DATA_FILE: t.dat",
       "BRICK_ORIGIN: 0. 0.", "BRICK_SIZE: 1. 1.", "VARIABLE: z"] [1, 2] "WEIRD"
      (by decide) (by decide) (by decide)
      ⟨"2", by decide, by decide⟩
      ⟨"0. 0.", by decide, by decide⟩
      ⟨"1. 1.", by decide, by decide⟩

/-! # C3: finalize_all attempts every event exactly once -/

theorem portInit_ports_finCount (w : World) (q p : String) :
    ((portInit w q).1.ports p).finCount = (w.ports p).finCount := by
  have hsp : ((setPort w q
      { w.ports q with initCount := (w.ports q).initCount + 1 }).ports p).finCount
      = (w.ports p).finCount := by
    by_cases hpq : p = q
    · subst hpq; rw [setPort_self]
    · rw [setPort_other _ _ _ _ hpq]
  simp only [portInit]
  split
  · exact hsp
  · exact hsp

theorem portFin_count (w : World) (q p : String) :
    ((portFin w q).1.ports p).finCount =
      (w.ports p).finCount + (if q = p then 1 else 0) := by
  have hsp : ((setPort w q
      { w.ports q with finCount := (w.ports q).finCount + 1 }).ports p).finCount
      = (w.ports p).finCount + (if q = p then 1 else 0) := by
    by_cases hpq : p = q
    · subst hpq; rw [setPort_self, if_pos rfl]
    · rw [setPort_other _ _ _ _ hpq, if_neg (fun h => hpq h.symm)]
      omega
  simp only [portFin]
  split
  · exact hsp
  · exact hsp

mutual

theorem eventFin_count : ∀ (e : Event) (w : World) (p : String),
    ((eventFin e w).1.ports p).finCount = (w.ports p).finCount + countFin e p
  | .portEvent q, w, p => by
    simpa only [eventFin, countFin] using portFin_count w q p
  | .portMapEvent s d vs, w, p => by
    simp [eventFin, countFin]
  | .chainEvent subs, w, p => by
    simpa only [eventFin, countFin] using finList_count subs w p

theorem finList_count : ∀ (es : List Event) (w : World) (p : String),
    ((finList es w).1.ports p).finCount = (w.ports p).finCount + countFinList es p
  | [], w, p => by simp [finList, countFinList]
  | e :: es, w, p => by
    simp only [finList, countFinList]
    rw [finList_count es (eventFin e w).1 p, eventFin_count e w p]
    omega

end

theorem updateUntil_finCount (w : World) (q p : String) (t : Time) :
    ((updateUntil w q t).1.ports p).finCount = (w.ports p).finCount := by
  rw [updateUntil]
  split
  · rfl
  · by_cases hpq : p = q
    · subst hpq; rw [setPort_self]
    · rw [setPort_other _ _ _ _ hpq]

theorem portMapStep_finCount (src dst : String) (w : World) (pr : String × String)
    (p : String) :
    ((portMapStep src dst w pr).1.ports p).finCount = (w.ports p).finCount := by
  rw [portMapStep]
  rcases hg : getGridValues w src pr.2 with _ | v
  · rfl
  · simp only [hg]
    rcases hs : setGridValues w dst pr.1 v with _ | w'
    · rfl
    · simp only [hs]
      rw [setGridValues] at hs
      split at hs
      · injection hs with h
        subst h
        by_cases hpq : p = dst
        · subst hpq; rw [setPort_self]
        · rw [setPort_other _ _ _ _ hpq]
      · exact absurd hs (by simp)

theorem portMapRun_finCount (src dst : String) :
    ∀ (vs : List (String × String)) (w : World) (p : String),
      ((portMapRun src dst vs w).1.ports p).finCount = (w.ports p).finCount
  | [], _, _ => rfl
  | pr :: rest, w, p => by
    simp only [portMapRun]
    cases hr : (portMapStep src dst w pr).2 with
    | some err => simpa using portMapStep_finCount src dst w pr p
    | none =>
      simp only [hr]
      rw [portMapRun_finCount src dst rest (portMapStep src dst w pr).1 p,
          portMapStep_finCount src dst w pr p]

mutual

theorem eventRun_finCount : ∀ (e : Event) (t : Time) (w : World) (p : String),
    ((eventRun e t w).1.ports p).finCount = (w.ports p).finCount
  | .portEvent q, t, w, p => by
    simpa only [eventRun] using updateUntil_finCount w q p t
  | .portMapEvent s d vs, _, w, p => by
    simpa only [eventRun] using portMapRun_finCount s d vs w p
  | .chainEvent subs, t, w, p => by
    simpa only [eventRun] using runList_finCount subs t w p

theorem runList_finCount : ∀ (es : List Event) (t : Time) (w : World) (p : String),
    ((runList es t w).1.ports p).finCount = (w.ports p).finCount
  | [], _, _, _ => rfl
  | e :: es, t, w, p => by
    simp only [runList]
    cases hr : (eventRun e t w).2 with
    | some err => simpa using eventRun_finCount e t w p
    | none =>
      simp only [hr]
      rw [runList_finCount es t (eventRun e t w).1 p, eventRun_finCount e t w p]

end

mutual

theorem eventInit_finCount : ∀ (e : Event) (w : World) (p : String),
    ((eventInit e w).1.ports p).finCount = (w.ports p).finCount
  | .portEvent q, w, p => by
    simpa only [eventInit] using portInit_ports_finCount w q p
  | .portMapEvent _ _ _, _, _ => rfl
  | .chainEvent subs, w, p => by
    simpa only [eventInit] using initList_finCount subs w p

theorem initList_finCount : ∀ (es : List Event) (w : World) (p : String),
    ((initList es w).1.ports p).finCount = (w.ports p).finCount
  | [], _, _ => rfl
  | e :: es, w, p => by
    simp only [initList]
    cases hr : (eventInit e w).2 with
    | some err => simpa using eventInit_finCount e w p
    | none =>
      simp only [hr]
      rw [initList_finCount es (eventInit e w).1 p, eventInit_finCount e w p]

end

theorem fireFirstAt_finCount : ∀ (es : List Entry) (d : Time) (w : World) (p : String),
    ((fireFirstAt es d w).world.ports p).finCount = (w.ports p).finCount
  | [], _, _, _ => rfl
  | en :: es, d, w, p => by
    rw [fireFirstAt]
    split
    · simpa using eventRun_finCount en.event d w p
    · simpa using fireFirstAt_finCount es d w p

theorem fireFirstAt_events : ∀ (es : List Entry) (d : Time) (w : World),
    (fireFirstAt es d w).entries.map Entry.event = es.map Entry.event
  | [], _, _ => rfl
  | en :: es, d, w => by
    rw [fireFirstAt]
    split
    · simp
    · simpa using fireFirstAt_events es d w

theorem runLoop_finCount :
    ∀ (fuel : Nat) (es : List Entry) (stop : Time) (w : World) (p : String),
      ((runLoop fuel es stop w).world.ports p).finCount = (w.ports p).finCount
  | 0, _, _, _, _ => rfl
  | fuel + 1, es, stop, w, p => by
    simp only [runLoop]
    cases hm : minDue? es stop with
    | none => rfl
    | some d =>
      simp only [hm]
      cases hr : (fireFirstAt es d w).error with
      | some err => simpa using fireFirstAt_finCount es d w p
      | none =>
        simp only [hr]
        rw [runLoop_finCount fuel (fireFirstAt es d w).entries stop
              (fireFirstAt es d w).world p,
            fireFirstAt_finCount es d w p]

theorem runLoop_events :
    ∀ (fuel : Nat) (es : List Entry) (stop : Time) (w : World),
      (runLoop fuel es stop w).entries.map Entry.event = es.map Entry.event
  | 0, _, _, _ => rfl
  | fuel + 1, es, stop, w => by
    simp only [runLoop]
    cases hm : minDue? es stop with
    | none => rfl
    | some d =>
      simp only [hm]
      cases hr : (fireFirstAt es d w).error with
      | some err => simpa using fireFirstAt_events es d w
      | none =>
        simp only [hr]
        rw [runLoop_events fuel (fireFirstAt es d w).entries stop
              (fireFirstAt es d w).world,
            fireFirstAt_events es d w]

theorem runManager_finCount (m : EventManager) (fuel : Nat) (stop : Time) (w : World)
    (p : String) :
    ((runManager m fuel stop w).world.ports p).finCount = (w.ports p).finCount := by
  rw [runManager]
  split
  · split
    · rfl
    · cases hr : (runLoop fuel m.entries stop w).error with
      | some err => simpa [hr] using runLoop_finCount fuel m.entries stop w p
      | none => simpa [hr] using runLoop_finCount fuel m.entries stop w p
  · rfl

theorem runManager_events (m : EventManager) (fuel : Nat) (stop : Time) (w : World) :
    (runManager m fuel stop w).manager.entries.map Entry.event =
      m.entries.map Entry.event := by
  rw [runManager]
  split
  · split
    · rfl
    · cases hr : (runLoop fuel m.entries stop w).error with
      | some err => simpa [hr] using runLoop_events fuel m.entries stop w
      | none => simpa [hr] using runLoop_events fuel m.entries stop w
  · rfl

theorem runManager_phase_ne (m : EventManager) (fuel : Nat) (stop : Time) (w : World)
    (h : m.phase ≠ .finalized) :
    (runManager m fuel stop w).manager.phase ≠ .finalized := by
  rw [runManager]
  split
  · split
    · exact h
    · cases hr : (runLoop fuel m.entries stop w).error with
      | some err => simpa [hr] using h
      | none => simp [hr]
  · exact h

theorem runMany_finCount (fuel : Nat) :
    ∀ (stops : List Time) (m : EventManager) (w : World) (p : String),
      ((runMany fuel stops m w).2.1.ports p).finCount = (w.ports p).finCount
  | [], _, _, _ => rfl
  | s :: ss, m, w, p => by
    simp only [runMany]
    cases hr : (runManager m fuel s w).error with
    | some err => simpa using runManager_finCount m fuel s w p
    | none =>
      simp only [hr]
      rw [runMany_finCount fuel ss (runManager m fuel s w).manager
            (runManager m fuel s w).world p,
          runManager_finCount m fuel s w p]

theorem runMany_events (fuel : Nat) :
    ∀ (stops : List Time) (m : EventManager) (w : World),
      (runMany fuel stops m w).1.entries.map Entry.event = m.entries.map Entry.event
  | [], _, _ => rfl
  | s :: ss, m, w => by
    simp only [runMany]
    cases hr : (runManager m fuel s w).error with
    | some err => simpa using runManager_events m fuel s w
    | none =>
      simp only [hr]
      rw [runMany_events fuel ss (runManager m fuel s w).manager
            (runManager m fuel s w).world,
          runManager_events m fuel s w]

theorem runMany_phase_ne (fuel : Nat) :
    ∀ (stops : List Time) (m : EventManager) (w : World),
      m.phase ≠ .finalized → (runMany fuel stops m w).1.phase ≠ .finalized
  | [], _, _, h => h
  | s :: ss, m, w, h => by
    simp only [runMany]
    cases hr : (runManager m fuel s w).error with
    | some err => simpa using runManager_phase_ne m fuel s w h
    | none =>
      simp only [hr]
      exact runMany_phase_ne fuel ss (runManager m fuel s w).manager
        (runManager m fuel s w).world (runManager_phase_ne m fuel s w h)

theorem initAll_entries (m : EventManager) (w : World) :
    (initAll m w).1.entries = m.entries := by
  rw [initAll]
  split
  · cases h : (initList (m.entries.map Entry.event) w).2 <;> simp [h]
  · rfl

theorem initAll_finCount (m : EventManager) (w : World) (p : String) :
    ((initAll m w).2.1.ports p).finCount = (w.ports p).finCount := by
  rw [initAll]
  split
  · cases h : (initList (m.entries.map Entry.event) w).2 with
    | some e => simpa [h] using initList_finCount (m.entries.map Entry.event) w p
    | none => simpa [h] using initList_finCount (m.entries.map Entry.event) w p
  · rfl

theorem initAll_ok_phase (m : EventManager) (w : World)
    (h : (initAll m w).2.2 = none) (hm : m.phase = .unstarted) :
    (initAll m w).1.phase = .inited := by
  cases her : (initList (m.entries.map Entry.event) w).2 with
  | some e => simp [initAll, hm, her] at h
  | none => simp [initAll, hm, her]

/-- C3: scoped use of the manager — enter, any sequence of `run` calls,
exit — attempts `finalize()` on every registered event exactly once on
every exit path: for each port `p`, the final world's finalize count is
the initial one plus exactly the number of `PortEvent`s over `p`
registered (directly or inside chains), regardless of how many runs were
made, which of them raised, and which finalizations fail. -/
theorem claimC3_finalize_exactly_once (m : EventManager) (fuel : Nat)
    (stops : List Time) (w : World) (p : String)
    (hm : m.phase = .unstarted)
    (hinit : (initAll m w).2.2 = none) :
    ((scopedRun m fuel stops w).1.ports p).finCount =
      (w.ports p).finCount + countFinAll m.entries p := by
  simp only [scopedRun, hinit]
  have hph1 : (initAll m w).1.phase = .inited := initAll_ok_phase m w hinit hm
  have hph2 : (runMany fuel stops (initAll m w).1 (initAll m w).2.1).1.phase
      ≠ .finalized := by
    refine runMany_phase_ne fuel stops _ _ ?_
    rw [hph1]
    intro hc
    cases hc
  rw [finalizeAll, if_neg hph2]
  rw [finList_count, runMany_finCount, initAll_finCount, runMany_events,
      initAll_entries]
  rfl

/-- Witness for C3 at the scoped-resource scenario of the spec: one chain
whose second sub-event raises during `run(1)`; `finalize_all` still
finalizes both ports exactly once, and the run error is the second
port's failure. -/
theorem claimC3_witness :
    ((scopedRun chainMgr 4 [1] brokenBWorld).1.ports "a").finCount =
        (brokenBWorld.ports "a").finCount + countFinAll chainMgr.entries "a" ∧
    ((scopedRun chainMgr 4 [1] brokenBWorld).1.ports "b").finCount =
        (brokenBWorld.ports "b").finCount + countFinAll chainMgr.entries "b" ∧
    (brokenBWorld.ports "a").finCount + countFinAll chainMgr.entries "a" = 1 ∧
    (brokenBWorld.ports "b").finCount + countFinAll chainMgr.entries "b" = 1 ∧
    (scopedRun chainMgr 4 [1] brokenBWorld).2.1 = some (.portFailure "b") :=
  ⟨claimC3_finalize_exactly_once chainMgr 4 [1] brokenBWorld "a" rfl (by decide),
   claimC3_finalize_exactly_once chainMgr 4 [1] brokenBWorld "b" rfl (by decide),
   by decide, by decide, by decide⟩

/-! # C1: first firing at `t = interval`, fixed-interval recurrence -/

theorem runLoop_port_fire (fuel : Nat) (p : String) (iv d stop : Time) (w : World)
    (hd : d ≤ stop) (hbr' : (w.ports p).breakRun = false) :
    runLoop (fuel + 1) [⟨.portEvent p, iv, d⟩] stop w =
      ⟨(runLoop fuel [⟨.portEvent p, iv, d + iv⟩] stop (updateUntil w p d).1).entries,
       (runLoop fuel [⟨.portEvent p, iv, d + iv⟩] stop (updateUntil w p d).1).world,
       (d, 0) ::
         (runLoop fuel [⟨.portEvent p, iv, d + iv⟩] stop (updateUntil w p d).1).trace,
       (runLoop fuel [⟨.portEvent p, iv, d + iv⟩] stop (updateUntil w p d).1).error⟩ := by
  simp [runLoop, minDue?, fireFirstAt, hd, eventRun, updateUntil, hbr']

theorem runLoop_single_done (fuel : Nat) (en : Entry) (stop : Time) (w : World)
    (hd : ¬ en.nextDue ≤ stop) :
    runLoop (fuel + 1) [en] stop w = ⟨[en], w, [], none⟩ := by
  simp [runLoop, minDue?, hd]

theorem updateUntil_breakRun (w : World) (p : String) (t : Time)
    (h : (w.ports p).breakRun = false) :
    ((updateUntil w p t).1.ports p).breakRun = false := by
  simp [updateUntil, h, setPort_self]

theorem updateUntil_log (w : World) (p : String) (t : Time)
    (h : (w.ports p).breakRun = false) :
    (updateUntil w p t).1.log = w.log ++ [(p, t)] := by
  simp [updateUntil, h, setPort]

/-- C1: a single event registered at construction with positive interval
`i` first fires exactly at `t = i` (not `t = 0`), and one `run` call
jumping directly to `3 i` fires it exactly three times, at due times
`i`, `2 i`, `3 i` — each passed as the respective `until_time` to the
port, as the world log shows — with `next_due_time` advanced by exactly
`i` after each firing (ending at `4 i`). -/
theorem claimC1_first_firing (p : String) (i : Time) (w : World) (hi : 0 < i)
    (hbi : (w.ports p).breakInit = false) (hbr : (w.ports p).breakRun = false) :
    createManager [(.portEvent p, i)] = .ok (singleMgr p i) ∧
    (singleInited p i w).2.2 = none ∧
    (singleRun p i w).error = none ∧
    (singleRun p i w).trace = [(i, 0), (2*i, 0), (3*i, 0)] ∧
    (singleRun p i w).world.log =
      (singleInited p i w).2.1.log ++ [(p, i), (p, 2*i), (p, 3*i)] ∧
    (singleRun p i w).manager.entries = [⟨.portEvent p, i, 4*i⟩] ∧
    (singleRun p i w).manager.currentTime = 3*i := by
  have hpi2 : (portInit w p).2 = none := by
    rw [portInit]
    simp [hbi]
  have hInit : singleInited p i w =
      ({ singleMgr p i with phase := .inited }, (portInit w p).1, none) := by
    simp only [singleInited, initAll, singleMgr]
    simp [initList, eventInit, hpi2]
  have hbr1 : ((portInit w p).1.ports p).breakRun = false := by
    simp [portInit, hbi, setPort_self, hbr]
  set w1 := (portInit w p).1 with hw1
  have f1 := runLoop_port_fire 3 p i i (3*i) w1 (by linarith) hbr1
  have hbr2 := updateUntil_breakRun w1 p i hbr1
  have hlog2 := updateUntil_log w1 p i hbr1
  set w2 := (updateUntil w1 p i).1 with hw2
  have f2 := runLoop_port_fire 2 p i (i+i) (3*i) w2 (by linarith) hbr2
  have hbr3 := updateUntil_breakRun w2 p (i+i) hbr2
  have hlog3 := updateUntil_log w2 p (i+i) hbr2
  set w3 := (updateUntil w2 p (i+i)).1 with hw3
  have f3 := runLoop_port_fire 1 p i (i+i+i) (3*i) w3 (by linarith) hbr3
  have hbr4 := updateUntil_breakRun w3 p (i+i+i) hbr3
  have hlog4 := updateUntil_log w3 p (i+i+i) hbr3
  set w4 := (updateUntil w3 p (i+i+i)).1 with hw4
  have f4 := runLoop_single_done 0 ⟨.portEvent p, i, i+i+i+i⟩ (3*i) w4
    (not_le.mpr (by show (3:ℚ)*i < i+i+i+i; linarith))
  have hloop : runLoop 4 [⟨.portEvent p, i, i⟩] (3*i) w1 =
      ⟨[⟨.portEvent p, i, i+i+i+i⟩], w4, [(i,0), (i+i,0), (i+i+i,0)], none⟩ := by
    rw [f1, f2, f3, f4]
  have hIm : (singleInited p i w).1 = { singleMgr p i with phase := .inited } := by
    rw [hInit]
  have hIw : (singleInited p i w).2.1 = w1 := by
    rw [hInit]
  have hrun : singleRun p i w =
      ⟨⟨[⟨.portEvent p, i, i+i+i+i⟩], 3*i, .running⟩, w4,
       [(i,0), (i+i,0), (i+i+i,0)], none⟩ := by
    rw [singleRun, hIm, hIw]
    rw [runManager, if_pos (Or.inl rfl),
        if_neg (not_lt.mpr (by show (0:ℚ) ≤ 3*i; linarith))]
    simp only [singleMgr]
    simp only [hloop]
  have h4i : i + i + i + i = 4*i := by ring
  have h3i : i + i + i = 3*i := by ring
  have h2i : i + i = 2*i := by ring
  refine ⟨?_, ?_, ?_, ?_, ?_, ?_, ?_⟩
  · simp [createManager, List.foldlM, addRecurringEvent, emptyManager, singleMgr,
      not_le.mpr hi]
  · rw [hInit]
  · rw [hrun]
  · rw [hrun, h4i, h3i, h2i]
  · rw [hrun, hInit]
    show w4.log = w1.log ++ [(p, i), (p, 2*i), (p, 3*i)]
    rw [hw4, hlog4, hlog3, hlog2, h3i, h2i]
    simp
  · rw [hrun, h4i]
  · rw [hrun]

/-- Witness for C1 at `i = 1`: firings at 1, 2, 3 within one
`run(3)` call, next due time 4. -/
theorem claimC1_witness :
    createManager [(.portEvent "a", 1)] = .ok (singleMgr "a" 1) ∧
    (singleInited "a" 1 baseWorld).2.2 = none ∧
    (singleRun "a" 1 baseWorld).error = none ∧
    (singleRun "a" 1 baseWorld).trace = [(1, 0), (2*1, 0), (3*1, 0)] ∧
    (singleRun "a" 1 baseWorld).world.log =
      (singleInited "a" 1 baseWorld).2.1.log ++ [("a", 1), ("a", 2*1), ("a", 3*1)] ∧
    (singleRun "a" 1 baseWorld).manager.entries = [⟨.portEvent "a", 1, 4*1⟩] ∧
    (singleRun "a" 1 baseWorld).manager.currentTime = 3*1 :=
  claimC1_first_firing "a" 1 baseWorld one_pos rfl rfl

/-! # C2: firing order within one run call -/

theorem minDue_none : ∀ (es : List Entry) (stop : Time),
    minDue? es stop = none → ∀ en ∈ es, stop < en.nextDue
  | [], _, _ => by simp
  | en :: es, stop, h => by
    cases hrec : minDue? es stop with
    | none =>
      simp only [minDue?, hrec] at h
      by_cases hle : en.nextDue ≤ stop
      · rw [if_pos hle] at h
        cases h
      · intro en' hmem
        rcases List.mem_cons.mp hmem with rfl | hmem'
        · exact not_le.mp hle
        · exact minDue_none es stop hrec en' hmem'
    | some d' =>
      simp only [minDue?, hrec] at h
      by_cases hle : en.nextDue ≤ stop
      · rw [if_pos hle] at h
        cases h
      · rw [if_neg hle] at h
        cases h

theorem minDue_le_stop : ∀ (es : List Entry) (stop d : Time),
    minDue? es stop = some d → d ≤ stop
  | [], _, _ => by simp [minDue?]
  | en :: es, stop, d => by
    intro h
    cases hrec : minDue? es stop with
    | none =>
      simp only [minDue?, hrec] at h
      by_cases hle : en.nextDue ≤ stop
      · rw [if_pos hle] at h
        injection h with h
        subst h
        exact hle
      · rw [if_neg hle] at h
        cases h
    | some d' =>
      simp only [minDue?, hrec] at h
      have ihd' := minDue_le_stop es stop d' hrec
      by_cases hle : en.nextDue ≤ stop
      · rw [if_pos hle] at h
        injection h with h
        subst h
        exact le_trans (min_le_right _ _) ihd'
      · rw [if_neg hle] at h
        injection h with h
        subst h
        exact ihd'

theorem minDue_lb : ∀ (es : List Entry) (stop d : Time),
    minDue? es stop = some d → ∀ en ∈ es, d ≤ en.nextDue
  | [], _, _ => by simp
  | en :: es, stop, d => by
    intro h en' hmem
    cases hrec : minDue? es stop with
    | none =>
      simp only [minDue?, hrec] at h
      by_cases hle : en.nextDue ≤ stop
      · rw [if_pos hle] at h
        injection h with h
        subst h
        rcases List.mem_cons.mp hmem with rfl | hmem'
        · exact le_refl _
        · exact le_trans hle (le_of_lt (minDue_none es stop hrec en' hmem'))
      · rw [if_neg hle] at h
        cases h
    | some d' =>
      simp only [minDue?, hrec] at h
      have ih := minDue_lb es stop d' hrec
      by_cases hle : en.nextDue ≤ stop
      · rw [if_pos hle] at h
        injection h with h
        subst h
        rcases List.mem_cons.mp hmem with rfl | hmem'
        · exact min_le_left _ _
        · exact le_trans (min_le_right _ _) (ih en' hmem')
      · rw [if_neg hle] at h
        injection h with h
        subst h
        rcases List.mem_cons.mp hmem with rfl | hmem'
        · exact le_of_lt (lt_of_le_of_lt (minDue_le_stop es stop d' hrec)
            (not_le.mp hle))
        · exact ih en' hmem'

theorem minDue_attained : ∀ (es : List Entry) (stop d : Time),
    minDue? es stop = some d → ∃ en ∈ es, en.nextDue = d
  | [], _, _ => by simp [minDue?]
  | en :: es, stop, d => by
    intro h
    cases hrec : minDue? es stop with
    | none =>
      simp only [minDue?, hrec] at h
      by_cases hle : en.nextDue ≤ stop
      · rw [if_pos hle] at h
        injection h with h
        exact ⟨en, List.mem_cons_self _ _, h⟩
      · rw [if_neg hle] at h
        cases h
    | some d' =>
      simp only [minDue?, hrec] at h
      by_cases hle : en.nextDue ≤ stop
      · rw [if_pos hle] at h
        injection h with h
        rcases le_total en.nextDue d' with hmin | hmin
        · rw [min_eq_left hmin] at h
          exact ⟨en, List.mem_cons_self _ _, h⟩
        · rw [min_eq_right hmin] at h
          subst h
          obtain ⟨en', hmem', hdue'⟩ := minDue_attained es stop d' hrec
          exact ⟨en', List.mem_cons_of_mem _ hmem', hdue'⟩
      · rw [if_neg hle] at h
        injection h with h
        subst h
        obtain ⟨en', hmem', hdue'⟩ := minDue_attained es stop d' hrec
        exact ⟨en', List.mem_cons_of_mem _ hmem', hdue'⟩

theorem fireFirstAt_spec : ∀ (es : List Entry) (d : Time) (w : World),
    (∃ en ∈ es, en.nextDue = d) →
    ∃ hi : (fireFirstAt es d w).idx < es.length,
      (es.get ⟨(fireFirstAt es d w).idx, hi⟩).nextDue = d ∧
      (∀ j (hj : j < es.length), j < (fireFirstAt es d w).idx →
        (es.get ⟨j, hj⟩).nextDue ≠ d) ∧
      (fireFirstAt es d w).entries.length = es.length ∧
      (∀ j (hj : j < es.length) (hj' : j < (fireFirstAt es d w).entries.length),
        (fireFirstAt es d w).entries.get ⟨j, hj'⟩ =
          if j = (fireFirstAt es d w).idx
          then { es.get ⟨j, hj⟩ with nextDue := d + (es.get ⟨j, hj⟩).interval }
          else es.get ⟨j, hj⟩)
  | [], d, w, hex => by
    simp at hex
  | en :: es, d, w, hex => by
    by_cases hd : en.nextDue = d
    · subst hd
      have hf : fireFirstAt (en :: es) en.nextDue w =
          ⟨{ en with nextDue := en.nextDue + en.interval } :: es,
           (eventRun en.event en.nextDue w).1, 0,
           (eventRun en.event en.nextDue w).2⟩ := by
        rw [fireFirstAt, if_pos rfl]
      rw [hf]
      refine ⟨by simp, by simp, ?_, by simp, ?_⟩
      · intro j hj hj0
        simp at hj0
      · intro j hj hj'
        cases j with
        | zero => simp
        | succ k => simp
    · have hex' : ∃ en' ∈ es, en'.nextDue = d := by
        rcases hex with ⟨en', hmem, hdue⟩
        rcases List.mem_cons.mp hmem with rfl | hmem'
        · exact absurd hdue hd
        · exact ⟨en', hmem', hdue⟩
      obtain ⟨hi, hdue, hbefore, hlen, hpt⟩ := fireFirstAt_spec es d w hex'
      have hf : fireFirstAt (en :: es) d w =
          ⟨en :: (fireFirstAt es d w).entries, (fireFirstAt es d w).world,
           (fireFirstAt es d w).idx + 1, (fireFirstAt es d w).error⟩ := by
        rw [fireFirstAt, if_neg hd]
      rw [hf]
      refine ⟨by simpa using Nat.succ_lt_succ hi, by simpa using hdue, ?_, ?_, ?_⟩
      · intro j hj hjlt
        cases j with
        | zero => simpa using hd
        | succ k =>
          have hk : k < es.length := by simpa using hj
          have hklt : k < (fireFirstAt es d w).idx := by
            simpa using hjlt
          simpa using hbefore k hk hklt
      · simpa using hlen
      · intro j hj hj'
        cases j with
        | zero => simp
        | succ k =>
          have hk : k < es.length := by simpa using hj
          have hk' : k < (fireFirstAt es d w).entries.length := by
            simpa using hj'
          have := hpt k hk hk'
          simp only [List.get_cons_succ]
          rw [this]
          by_cases hki : k = (fireFirstAt es d w).idx
          · rw [if_pos hki, if_pos (by simpa using congrArg Nat.succ hki)]
          · rw [if_neg hki, if_neg (fun hc => hki (by omega))]

theorem fireFirstAt_pos : ∀ (es : List Entry) (d : Time) (w : World),
    (∀ en ∈ es, 0 < en.interval) →
    ∀ en' ∈ (fireFirstAt es d w).entries, 0 < en'.interval
  | [], _, _, _ => by simp [fireFirstAt]
  | en :: es, d, w, hpos => by
    rw [fireFirstAt]
    split
    · intro en' hmem
      rcases List.mem_cons.mp hmem with rfl | hmem'
      · exact hpos en (List.mem_cons_self _ _)
      · exact hpos en' (List.mem_cons_of_mem _ hmem')
    · intro en' hmem
      rcases List.mem_cons.mp hmem with rfl | hmem'
      · exact hpos en' (List.mem_cons_self _ _)
      · exact fireFirstAt_pos es d w
          (fun e he => hpos e (List.mem_cons_of_mem _ he)) en' hmem'

theorem below_after_fire (es : List Entry) (stop d : Time) (w : World)
    (hpos : ∀ en ∈ es, 0 < en.interval)
    (hmin : minDue? es stop = some d) :
    Below (d, (fireFirstAt es d w).idx) (fireFirstAt es d w).entries := by
  obtain ⟨hi, hdue, hbefore, hlen, hpt⟩ :=
    fireFirstAt_spec es d w (minDue_attained es stop d hmin)
  intro j
  obtain ⟨jv, hj2⟩ := j
  have hjes : jv < es.length := hlen ▸ hj2
  rw [hpt jv hjes hj2]
  by_cases hji : jv = (fireFirstAt es d w).idx
  · rw [if_pos hji]
    have hint : 0 < (es.get ⟨jv, hjes⟩).interval :=
      hpos _ (List.get_mem es jv hjes)
    simp only [lexLt]
    left
    show d < d + (es.get ⟨jv, hjes⟩).interval
    linarith
  · rw [if_neg hji]
    have hge : d ≤ (es.get ⟨jv, hjes⟩).nextDue :=
      minDue_lb es stop d hmin _ (List.get_mem es jv hjes)
    simp only [lexLt]
    rcases lt_or_eq_of_le hge with hlt | heq
    · left
      exact hlt
    · right
      refine ⟨heq, ?_⟩
      rcases Nat.lt_or_ge jv (fireFirstAt es d w).idx with hlt2 | hge2
      · exact absurd heq.symm (hbefore jv hjes hlt2)
      · show (fireFirstAt es d w).idx < jv
        omega

theorem runLoop_trace_chain (fuel : Nat) :
    ∀ (es : List Entry) (stop : Time) (w : World),
      (∀ en ∈ es, 0 < en.interval) →
      List.Chain' lexLt (runLoop fuel es stop w).trace ∧
      (∀ c, Below c es → List.Chain' lexLt (c :: (runLoop fuel es stop w).trace)) := by
  induction fuel with
  | zero =>
    intro es stop w hpos
    constructor
    · simp [runLoop]
    · intro c _
      simp [runLoop]
  | succ fuel ih =>
    intro es stop w hpos
    cases hmin : minDue? es stop with
    | none =>
      constructor
      · simp [runLoop, hmin]
      · intro c _
        simp [runLoop, hmin]
    | some d =>
      obtain ⟨hi, hdue, hbefore, hlen, hpt⟩ :=
        fireFirstAt_spec es d w (minDue_attained es stop d hmin)
      have hb' := below_after_fire es stop d w hpos hmin
      have hpos' := fireFirstAt_pos es d w hpos
      have hlex : ∀ c, Below c es → lexLt c (d, (fireFirstAt es d w).idx) := by
        intro c hc
        have := hc ⟨(fireFirstAt es d w).idx, hi⟩
        rw [hdue] at this
        exact this
      cases herr : (fireFirstAt es d w).error with
      | some err =>
        constructor
        · simp [runLoop, hmin, herr]
        · intro c hc
          simp only [runLoop, hmin, herr]
          exact List.chain'_cons.mpr ⟨hlex c hc, List.chain'_singleton _⟩
      | none =>
        have hchain : List.Chain' lexLt
            ((d, (fireFirstAt es d w).idx) ::
              (runLoop fuel (fireFirstAt es d w).entries stop
                (fireFirstAt es d w).world).trace) :=
          (ih (fireFirstAt es d w).entries stop (fireFirstAt es d w).world hpos').2
            _ hb'
        constructor
        · simpa [runLoop, hmin, herr] using hchain
        · intro c hc
          simp only [runLoop, hmin, herr]
          exact List.chain'_cons.mpr ⟨hlex c hc, hchain⟩

theorem runManager_trace_chain (m : EventManager) (fuel : Nat) (stop : Time)
    (w : World) (hpos : ∀ en ∈ m.entries, 0 < en.interval) :
    List.Chain' lexLt (runManager m fuel stop w).trace := by
  rw [runManager]
  split
  · split
    · simp
    · cases hr : (runLoop fuel m.entries stop w).error with
      | some err =>
        simpa [hr] using (runLoop_trace_chain fuel m.entries stop w hpos).1
      | none =>
        simpa [hr] using (runLoop_trace_chain fuel m.entries stop w hpos).1
  · simp

theorem strAB : (("a" : String) = "b") = False := by simp

theorem strBA : (("b" : String) = "a") = False := by simp

/-- C2: within one `run(stop_time)` call the firing trace is strictly
increasing in the lexicographic (due time, registration index) order —
due events fire in ascending due-time order, ties broken by ascending
registration order; and in the concrete two-event schedule with
intervals 1 and 1.2, `run(1)` fires only the first event, while the
subsequent `run(2)` fires the second event (due at 1.2) before the first
(due at 2), as both the firing trace and the port log show. -/
theorem claimC2_firing_order :
    (∀ (m : EventManager) (fuel : Nat) (stop : Time) (w : World),
        (∀ en ∈ m.entries, 0 < en.interval) →
        List.Chain' lexLt (runManager m fuel stop w).trace) ∧
    (createManager twoEventPairs = .ok twoMgr ∧
     twoRun1.error = none ∧ twoRun1.trace = [(1, 0)] ∧
     twoRun2.error = none ∧ twoRun2.trace = [(6/5, 1), (2, 0)] ∧
     twoRun2.world.log = [("a", 1), ("b", 6/5), ("a", 2)]) := by
  refine ⟨runManager_trace_chain, ?_, ?_, ?_, ?_, ?_, ?_⟩
  · norm_num [createManager, List.foldlM, addRecurringEvent, emptyManager,
      twoEventPairs, twoMgr, Except.instMonad, Except.bind, Except.pure]
  · norm_num [twoRun1, runManager, runLoop, minDue?, fireFirstAt, eventRun,
      updateUntil, initAll, initList, eventInit, portInit, setPort, basePort,
      baseWorld, twoMgr, strAB, strBA, min_def]
  · norm_num [twoRun1, runManager, runLoop, minDue?, fireFirstAt, eventRun,
      updateUntil, initAll, initList, eventInit, portInit, setPort, basePort,
      baseWorld, twoMgr, strAB, strBA, min_def]
  · norm_num [twoRun2, twoRun1, runManager, runLoop, minDue?, fireFirstAt,
      eventRun, updateUntil, initAll, initList, eventInit, portInit, setPort,
      basePort, baseWorld, twoMgr, strAB, strBA, min_def]
  · norm_num [twoRun2, twoRun1, runManager, runLoop, minDue?, fireFirstAt,
      eventRun, updateUntil, initAll, initList, eventInit, portInit, setPort,
      basePort, baseWorld, twoMgr, strAB, strBA, min_def]
  · norm_num [twoRun2, twoRun1, runManager, runLoop, minDue?, fireFirstAt,
      eventRun, updateUntil, initAll, initList, eventInit, portInit, setPort,
      basePort, baseWorld, twoMgr, strAB, strBA, min_def]

/-- Witness for C2: the trace of a concrete `run(2)` over the 1 / 1.2
schedule is lexicographically increasing. -/
theorem claimC2_witness :
    List.Chain' lexLt (runManager ⟨[⟨.portEvent "a", 1, 1⟩,
      ⟨.portEvent "b", 6/5, 6/5⟩], 0, .inited⟩ 4 2 baseWorld).trace :=
  claimC2_firing_order.1 ⟨[⟨.portEvent "a", 1, 1⟩,
      ⟨.portEvent "b", 6/5, 6/5⟩], 0, .inited⟩ 4 2 baseWorld (by
    intro en hen
    simp only [List.mem_cons, List.not_mem_nil, or_false] at hen
    rcases hen with rfl | rfl
    · norm_num
    · norm_num)
